import Mathlib

/-!
Verification of the caddy-iri-attach plugin (src/plugin.go).

The plugin intercepts the `attachToTangle` JSON RPC command on POST
requests, assembles a bundle of transactions from the request's trytes
list, threads the bundle into a hash-linked chain while performing a
proof-of-work nonce search per record (`doPow`), and responds with the
re-encoded transactions.

The trytes/transaction codec (the external giota library) is opaque to
the plugin; it is modelled as a `Codec` structure of abstract functions.
Wall-clock time is modelled as a function `now : Nat → Int` giving the
UnixNano value returned by the k-th call to `time.Now()`; the proof-of-work
search `giota.PowFunc` is modelled as a function returning the nonce and
an optional error, mirroring the Go `(Trytes, error)` pair.
-/

namespace giota

/-- Model of the external `giota.Transaction` record. The plugin reads the
`Value` field and writes the six attachment fields (`TrunkTransaction`,
`BranchTransaction`, `AttachmentTimestamp`, the two bounds and `Nonce`);
all remaining fields are opaque payload carried through. -/
structure Transaction where
  SignatureMessageFragment : String
  Address : String
  Value : Int
  ObsoleteTag : String
  Timestamp : Int
  CurrentIndex : Int
  LastIndex : Int
  Bundle : String
  TrunkTransaction : String
  BranchTransaction : String
  Tag : String
  AttachmentTimestamp : String
  AttachmentTimestampLowerBound : String
  AttachmentTimestampUpperBound : String
  Nonce : String
  deriving DecidableEq, Repr

/-- Model of `giota.PowFunc = func(Trytes, int) (Trytes, error)`:
given the serialized transaction and the minimum weight magnitude it
returns the nonce and an optional error. -/
def PowFunc : Type := String → Int → String × Option String

end giota

/-- The decoded request payload `AttachToTangleCmd` of src/plugin.go. -/
structure AttachToTangleCmd where
  Command : String
  TrunkTxHash : String
  BranchTxHash : String
  MWM : Int
  Trytes : List String
  deriving DecidableEq, Repr

/-- The response payload `AttachToTangleRes` of src/plugin.go. -/
structure AttachToTangleRes where
  Trytes : List String
  Duration : Int
  deriving DecidableEq, Repr

/-- The abstract trytes codec: the operations of the external giota
library used by the plugin, plus the JSON round-trip for the command and
response payloads. The plugin treats all of them as black boxes. -/
structure Codec where
  decodeCmd : String → Option AttachToTangleCmd
  newTransaction : String → Option giota.Transaction
  txTrytes : giota.Transaction → String
  txHash : giota.Transaction → String
  int2TritsTrytes : Int → Nat → String
  timestampTrinarySize : Nat
  marshalRes : AttachToTangleRes → Option String

/-- Error message of `ErrMissingBody` in src/plugin.go. -/
def ErrMissingBody : String := "missing body"

/-- Error message of `ErrBuildingTx` in src/plugin.go. -/
def ErrBuildingTx : String := "couldn't build transaction from trytes"

/-- Error message of `ErrBuildingRes` in src/plugin.go. -/
def ErrBuildingRes : String := "couldn't build response"

/-- Error message of `ErrTxBundleLimitExceeded` in src/plugin.go. -/
def ErrTxBundleLimitExceeded : String := "the number of transactions exceeds the limit"

/-- Message format of `errors.Wrapf(cause, msg, ...)` from pkg/errors:
the wrapping message, a colon and the cause's message. -/
def wrapErr (msg cause : String) : String := msg ++ ": " ++ cause

/-- The constant `attachToTangleCommand` of src/plugin.go. -/
def attachToTangleCommand : String := "attachToTangle"

/-- The constant `maxTimestampTrytes = "L99999999"` of src/plugin.go. -/
def maxTimestampTrytes : String := "L99999999"

/-- The plugin's own `Transaction` struct (the bundle): the two anchor
references and the list of transactions, src/plugin.go lines 193-196. -/
structure Transaction where
  Trunk : String
  Branch : String
  Transactions : List giota.Transaction

/-- One iteration body of the `doPow` loop of src/plugin.go (lines
202-215) for the record `t`, given the already-processed newer suffix
`restA` (records of higher index, already attached, newest last processed
first in `restA` head position) and the time counter `kA`. When `restA`
is empty, `t` is the newest record (index len-1) and receives the two
anchors; otherwise its trunk is the hash of the previously processed
record (the head of `restA`) and its branch is the trunk anchor. The
record is then stamped and the proof-of-work nonce searched. -/
def attachOne (codec : Codec) (pow : giota.PowFunc) (now : Nat → Int)
    (trunk branch : String) (mwm : Int) (t : giota.Transaction)
    (restA : List giota.Transaction) (kA : Nat) :
    giota.Transaction × Option String :=
  let refs : String × String :=
    match restA with
    | [] => (trunk, branch)
    | r :: _ => (codec.txHash r, trunk)
  let stamped : giota.Transaction :=
    { t with
      TrunkTransaction := refs.1,
      BranchTransaction := refs.2,
      AttachmentTimestamp :=
        codec.int2TritsTrytes ((now kA).tdiv 1000000) codec.timestampTrinarySize,
      AttachmentTimestampLowerBound := "",
      AttachmentTimestampUpperBound := maxTimestampTrytes }
  let pr := pow (codec.txTrytes stamped) mwm
  ({ stamped with Nonce := pr.1 }, pr.2)

/-- The loop of `doPow` (src/plugin.go lines 198-224) as a recursion on
the oldest-first transaction list: the loop runs the index from len-1
down to 0, so the tail (the newer records) is processed before the head.
Returns the processed list, the advanced time counter (one `time.Now()`
call per processed record) and the error, if any, of the proof-of-work
search; on an error the loop stops, leaving the older records (the
prefix) untouched, exactly as the in-place Go loop does. -/
def doPowAux (codec : Codec) (pow : giota.PowFunc) (now : Nat → Int)
    (trunk branch : String) (mwm : Int) :
    List giota.Transaction → Nat → List giota.Transaction × Nat × Option String
  | [], k => ([], k, none)
  | t :: rest, k =>
    match doPowAux codec pow now trunk branch mwm rest k with
    | (restA, kA, some e) => (t :: restA, kA, some e)
    | (restA, kA, none) =>
      match attachOne codec pow now trunk branch mwm t restA kA with
      | (t2, perr) => (t2 :: restA, kA + 1, perr)

/-- `doPow(tra, tx, mwm, pow)` of src/plugin.go, with the codec and the
time source made explicit; `k` is the time counter at entry. -/
def doPow (codec : Codec) (pow : giota.PowFunc) (now : Nat → Int) (k : Nat)
    (tra : Transaction) (tx : List giota.Transaction) (mwm : Int) :
    List giota.Transaction × Nat × Option String :=
  doPowAux codec pow now tra.Trunk tra.Branch mwm tx k

/-- The transaction-building loop of `ServeHTTP` (src/plugin.go lines
133-146): input trytes are iterated from the last entry down to the
first, each decoded via `giota.NewTransaction` and appended, so the
resulting list is the reversal of the input order (oldest-first
internally); any decoding failure aborts the whole build. -/
def buildTransactions (codec : Codec) : List String → Option (List giota.Transaction)
  | [] => some []
  | s :: rest =>
    match buildTransactions codec rest, codec.newTransaction s with
    | some txs, some t => some (txs ++ [t])
    | _, _ => none

/-- Result of the HTTP handler: pass the request on to the next handler
with the given body, fail with a status code and error message, or
answer the request itself with an `AttachToTangleRes` (HTTP 200). -/
inductive HandlerResult where
  | next (body : Option String)
  | fail (status : Nat) (msg : String)
  | ok (res : AttachToTangleRes)
  deriving DecidableEq, Repr

/-- The model of an incoming HTTP request: its method and its body
(`none` models a nil body). -/
structure Request where
  method : String
  body : Option String
  deriving DecidableEq, Repr

/-- The part of `ServeHTTP` (src/plugin.go lines 113-179) that runs once
the body has been decoded to an `attachToTangle` command, i.e. from the
`mu.Lock()` on: the empty-trytes pass-through, the bundle-size limit
check, transaction building, `doPow` (whose returned error line 160
discards), and response construction. `time.Now()` calls are numbered:
0 is `start` (line 117), 1 is `s` (line 159), 2.. are the per-record
timestamps inside `doPow`, and the two calls of lines 161 and 169
follow. The value-transfer classification (lines 131-150) only feeds
log output and is not modelled. -/
def handleCmd (codec : Codec) (pow : giota.PowFunc) (now : Nat → Int)
    (maxTxInBundle : Nat) (contents : String) (command : AttachToTangleCmd) :
    HandlerResult :=
  if command.Trytes.length = 0 then HandlerResult.next (some contents)
  else if command.Trytes.length > maxTxInBundle then
    HandlerResult.fail 400
      (wrapErr ("max allowed is " ++ toString maxTxInBundle) ErrTxBundleLimitExceeded)
  else
    match buildTransactions codec command.Trytes with
    | none => HandlerResult.fail 400 ErrBuildingTx
    | some transactions =>
      let bundle : Transaction :=
        { Trunk := command.TrunkTxHash, Branch := command.BranchTxHash,
          Transactions := transactions }
      match doPow codec pow now 2 bundle bundle.Transactions 14 with
      | (attached, k2, _powErr) =>
        let res : AttachToTangleRes :=
          { Trytes := attached.map codec.txTrytes,
            Duration := ((now (k2 + 1)) - now 0).tdiv 1000000 }
        match codec.marshalRes res with
        | none => HandlerResult.fail 500 ErrBuildingRes
        | some _resBytes => HandlerResult.ok res

/-- `ServeHTTP` of src/plugin.go (lines 83-180): non-POST requests and
requests whose body fails to decode, or decodes to a different command,
pass through to the next handler (with the body restored from the read
bytes, line 100); a nil body is a 400; otherwise the decoded command is
handled by `handleCmd`. -/
def ServeHTTP (codec : Codec) (pow : giota.PowFunc) (now : Nat → Int)
    (maxTxInBundle : Nat) (r : Request) : HandlerResult :=
  if r.method ≠ "POST" then HandlerResult.next r.body
  else
    match r.body with
    | none => HandlerResult.fail 400 ErrMissingBody
    | some contents =>
      match codec.decodeCmd contents with
      | none => HandlerResult.next (some contents)
      | some command =>
        if command.Command ≠ attachToTangleCommand then HandlerResult.next (some contents)
        else handleCmd codec pow now maxTxInBundle contents command

/-- The tuple of all `giota.Transaction` fields the attacher does not
write: the value and the opaque payload fields. -/
def nonAttachmentFields (t : giota.Transaction) :
    String × String × Int × String × Int × Int × Int × String × String :=
  (t.SignatureMessageFragment, t.Address, t.Value, t.ObsoleteTag, t.Timestamp,
   t.CurrentIndex, t.LastIndex, t.Bundle, t.Tag)

/-- The chain shape the spec asserts of an attached oldest-first record
list: the newest record (index `len-1`) carries the two anchors, and
every older record `i` trunk-links to the hash of record `i+1` while
branch-linking to the trunk anchor. -/
def linkedChain (codec : Codec) (trunk branch : String)
    (r : List giota.Transaction) : Prop :=
  (∀ h : 0 < r.length,
    (r.get ⟨r.length - 1, Nat.sub_lt h Nat.one_pos⟩).TrunkTransaction = trunk ∧
    (r.get ⟨r.length - 1, Nat.sub_lt h Nat.one_pos⟩).BranchTransaction = branch) ∧
  (∀ i : Nat, ∀ h : i + 1 < r.length,
    (r.get ⟨i, Nat.lt_of_succ_lt h⟩).TrunkTransaction =
      codec.txHash (r.get ⟨i + 1, h⟩) ∧
    (r.get ⟨i, Nat.lt_of_succ_lt h⟩).BranchTransaction = trunk)

lemma linkedChain_nil (codec : Codec) (trunk branch : String) :
    linkedChain codec trunk branch [] := by
  constructor
  · intro h; exact absurd h (by simp)
  · intro i h; exact absurd h (by simp)

lemma linkedChain_single (codec : Codec) (trunk branch : String)
    (t2 : giota.Transaction)
    (htr : t2.TrunkTransaction = trunk) (hbr : t2.BranchTransaction = branch) :
    linkedChain codec trunk branch [t2] := by
  constructor
  · intro h; exact ⟨htr, hbr⟩
  · intro i h; exact absurd h (by simp)

lemma linkedChain_cons (codec : Codec) (trunk branch : String)
    (t2 r : giota.Transaction) (restA : List giota.Transaction)
    (hchain : linkedChain codec trunk branch (r :: restA))
    (htr : t2.TrunkTransaction = codec.txHash r)
    (hbr : t2.BranchTransaction = trunk) :
    linkedChain codec trunk branch (t2 :: r :: restA) := by
  obtain ⟨hlast, hlink⟩ := hchain
  constructor
  · intro h
    have hl := hlast (by simp)
    simp only [List.get_eq_getElem, List.length_cons, Nat.add_sub_cancel] at hl ⊢
    rw [List.getElem_cons_succ]
    exact hl
  · intro i h
    simp only [List.get_eq_getElem] at hlink ⊢
    cases i with
    | zero =>
      simp only [List.getElem_cons_zero, List.getElem_cons_succ]
      exact ⟨htr, hbr⟩
    | succ j =>
      have hj : j + 1 < (r :: restA).length := by
        simp only [List.length_cons] at h ⊢; omega
      have := hlink j hj
      simpa only [List.getElem_cons_succ] using this

/-- Modelled from the spec: in the fixed-width timestamp codec every
encoded value has one common width, and the sentinel `maxTimestampTrytes`
is itself an encoded value of that codec (its saturation point), so any
encoding of zero must share the sentinel's width. -/
def fixedWidthTimestampValue (s : String) : Prop :=
  s.length = maxTimestampTrytes.length

/-- A `giota.Transaction` with all fields zero or empty, as produced by
decoding before any attachment. -/
def txDefault : giota.Transaction :=
  { SignatureMessageFragment := "", Address := "", Value := 0, ObsoleteTag := "",
    Timestamp := 0, CurrentIndex := 0, LastIndex := 0, Bundle := "",
    TrunkTransaction := "", BranchTransaction := "", Tag := "",
    AttachmentTimestamp := "", AttachmentTimestampLowerBound := "",
    AttachmentTimestampUpperBound := "", Nonce := "" }

/-- A fresh record whose payload field records the trytes string it was
decoded from. -/
def txOf (s : String) : giota.Transaction :=
  { txDefault with SignatureMessageFragment := s }

/-- A concrete two-entry attach command, trytes in request order
`["A", "B"]`, with anchors `T0`/`B0`. -/
def cmdAB : AttachToTangleCmd :=
  { Command := "attachToTangle", TrunkTxHash := "T0", BranchTxHash := "B0",
    MWM := 4, Trytes := ["A", "B"] }

/-- A concrete attach command with an empty trytes list. -/
def cmdEmpty : AttachToTangleCmd :=
  { Command := "attachToTangle", TrunkTxHash := "T0", BranchTxHash := "B0",
    MWM := 4, Trytes := [] }

/-- A concrete attach command with 201 trytes entries. -/
def cmd201 : AttachToTangleCmd :=
  { Command := "attachToTangle", TrunkTxHash := "T0", BranchTxHash := "B0",
    MWM := 4, Trytes := List.replicate 201 "A" }

/-- A concrete command decoder recognizing three request bodies. -/
def ccCmd (s : String) : Option AttachToTangleCmd :=
  if s = "reqAB" then some cmdAB
  else if s = "reqEmpty" then some cmdEmpty
  else if s = "req201" then some cmd201
  else none

/-- A concrete codec for witnesses: decoding stores the trytes string in
the payload field, serialization reads it back, hashing prepends "H". -/
def cc : Codec :=
  { decodeCmd := ccCmd,
    newTransaction := fun s => some (txOf s),
    txTrytes := fun t => t.SignatureMessageFragment,
    txHash := fun t => "H" ++ t.SignatureMessageFragment,
    int2TritsTrytes := fun v _ => toString v,
    timestampTrinarySize := 27,
    marshalRes := fun _ => some "resp" }

/-- A concrete proof-of-work function that always succeeds with nonce
"N". -/
def pp : giota.PowFunc := fun _ _ => ("N", none)

/-- A concrete proof-of-work function that succeeds only at difficulty
14. -/
def ppOnly14 : giota.PowFunc :=
  fun _ d => if d = 14 then ("N", none) else ("X", some "wrong difficulty")

/-- A concrete proof-of-work function that always reports an internal
error. -/
def ppErr : giota.PowFunc := fun _ _ => ("", some "pow search failed")

/-- A concrete time source: every `time.Now()` call returns 0. -/
def now0 : Nat → Int := fun _ => 0

lemma attachOne_refs_nil (codec : Codec) (pow : giota.PowFunc) (now : Nat → Int)
    (trunk branch : String) (mwm : Int) (t : giota.Transaction) (kA : Nat) :
    ((attachOne codec pow now trunk branch mwm t [] kA).1).TrunkTransaction = trunk ∧
    ((attachOne codec pow now trunk branch mwm t [] kA).1).BranchTransaction = branch :=
  ⟨rfl, rfl⟩

lemma attachOne_refs_cons (codec : Codec) (pow : giota.PowFunc) (now : Nat → Int)
    (trunk branch : String) (mwm : Int) (t r : giota.Transaction)
    (restA : List giota.Transaction) (kA : Nat) :
    ((attachOne codec pow now trunk branch mwm t (r :: restA) kA).1).TrunkTransaction =
      codec.txHash r ∧
    ((attachOne codec pow now trunk branch mwm t (r :: restA) kA).1).BranchTransaction =
      trunk :=
  ⟨rfl, rfl⟩

lemma attachOne_bounds (codec : Codec) (pow : giota.PowFunc) (now : Nat → Int)
    (trunk branch : String) (mwm : Int) (t : giota.Transaction)
    (restA : List giota.Transaction) (kA : Nat) :
    ((attachOne codec pow now trunk branch mwm t restA kA).1).AttachmentTimestampLowerBound
      = "" ∧
    ((attachOne codec pow now trunk branch mwm t restA kA).1).AttachmentTimestampUpperBound
      = maxTimestampTrytes := by
  cases restA <;> exact ⟨rfl, rfl⟩

lemma attachOne_frame (codec : Codec) (pow : giota.PowFunc) (now : Nat → Int)
    (trunk branch : String) (mwm : Int) (t : giota.Transaction)
    (restA : List giota.Transaction) (kA : Nat) :
    nonAttachmentFields (attachOne codec pow now trunk branch mwm t restA kA).1 =
      nonAttachmentFields t := by
  cases restA <;> rfl

lemma attachOne_congr (codec : Codec) (f g : giota.PowFunc) (now : Nat → Int)
    (trunk branch : String) (mwm : Int) (t : giota.Transaction)
    (restA : List giota.Transaction) (kA : Nat)
    (h : ∀ s, f s mwm = g s mwm) :
    attachOne codec f now trunk branch mwm t restA kA =
      attachOne codec g now trunk branch mwm t restA kA := by
  cases restA <;> simp only [attachOne, h]

lemma doPowAux_nil (codec : Codec) (pow : giota.PowFunc) (now : Nat → Int)
    (trunk branch : String) (mwm : Int) (k : Nat) :
    doPowAux codec pow now trunk branch mwm [] k = ([], k, none) := rfl

lemma doPowAux_cons (codec : Codec) (pow : giota.PowFunc) (now : Nat → Int)
    (trunk branch : String) (mwm : Int) (t : giota.Transaction)
    (rest : List giota.Transaction) (k : Nat) :
    doPowAux codec pow now trunk branch mwm (t :: rest) k =
      match doPowAux codec pow now trunk branch mwm rest k with
      | (restA, kA, some e) => (t :: restA, kA, some e)
      | (restA, kA, none) =>
        match attachOne codec pow now trunk branch mwm t restA kA with
        | (t2, perr) => (t2 :: restA, kA + 1, perr) := rfl

lemma doPowAux_length (codec : Codec) (pow : giota.PowFunc) (now : Nat → Int)
    (trunk branch : String) (mwm : Int) :
    ∀ (txs : List giota.Transaction) (k : Nat),
      (doPowAux codec pow now trunk branch mwm txs k).1.length = txs.length := by
  intro txs
  induction txs with
  | nil => intro k; rfl
  | cons t rest ih =>
    intro k
    rw [doPowAux_cons]
    rcases hr : doPowAux codec pow now trunk branch mwm rest k with ⟨restA, kA, errA⟩
    have hlen : restA.length = rest.length := by
      have := ih k; rw [hr] at this; exact this
    cases errA with
    | some e => simpa using hlen
    | none =>
      rcases ha : attachOne codec pow now trunk branch mwm t restA kA with ⟨t2, perr⟩
      simpa using hlen

lemma doPowAux_frame (codec : Codec) (pow : giota.PowFunc) (now : Nat → Int)
    (trunk branch : String) (mwm : Int) :
    ∀ (txs : List giota.Transaction) (k : Nat),
      (doPowAux codec pow now trunk branch mwm txs k).1.map nonAttachmentFields =
        txs.map nonAttachmentFields := by
  intro txs
  induction txs with
  | nil => intro k; rfl
  | cons t rest ih =>
    intro k
    rw [doPowAux_cons]
    rcases hr : doPowAux codec pow now trunk branch mwm rest k with ⟨restA, kA, errA⟩
    have hmap : restA.map nonAttachmentFields = rest.map nonAttachmentFields := by
      have := ih k; rw [hr] at this; exact this
    cases errA with
    | some e => simpa using hmap
    | none =>
      dsimp only
      rcases ha : attachOne codec pow now trunk branch mwm t restA kA with ⟨t2, perr⟩
      have ht2 : nonAttachmentFields t2 = nonAttachmentFields t := by
        have := attachOne_frame codec pow now trunk branch mwm t restA kA
        rw [ha] at this; exact this
      simpa [ht2] using hmap

lemma doPowAux_congr (codec : Codec) (f g : giota.PowFunc) (now : Nat → Int)
    (trunk branch : String) (mwm : Int) (h : ∀ s, f s mwm = g s mwm) :
    ∀ (txs : List giota.Transaction) (k : Nat),
      doPowAux codec f now trunk branch mwm txs k =
        doPowAux codec g now trunk branch mwm txs k := by
  intro txs
  induction txs with
  | nil => intro k; rfl
  | cons t rest ih =>
    intro k
    rw [doPowAux_cons, doPowAux_cons, ih k]
    rcases hg : doPowAux codec g now trunk branch mwm rest k with ⟨restA, kA, errA⟩
    cases errA with
    | some e => rfl
    | none =>
      dsimp only
      rw [attachOne_congr codec f g now trunk branch mwm t restA kA h]

lemma doPowAux_bounds (codec : Codec) (pow : giota.PowFunc) (now : Nat → Int)
    (trunk branch : String) (mwm : Int) :
    ∀ (txs : List giota.Transaction) (k : Nat),
      (doPowAux codec pow now trunk branch mwm txs k).2.2 = none →
      ∀ t ∈ (doPowAux codec pow now trunk branch mwm txs k).1,
        t.AttachmentTimestampLowerBound = "" ∧
        t.AttachmentTimestampUpperBound = maxTimestampTrytes := by
  intro txs
  induction txs with
  | nil => intro k _ t ht; simp [doPowAux_nil] at ht
  | cons t rest ih =>
    intro k hok u hu
    rw [doPowAux_cons] at hok hu
    rcases hr : doPowAux codec pow now trunk branch mwm rest k with ⟨restA, kA, errA⟩
    rw [hr] at hok hu
    cases errA with
    | some e => simp at hok
    | none =>
      dsimp only at hok hu
      rcases ha : attachOne codec pow now trunk branch mwm t restA kA with ⟨t2, perr⟩
      rw [ha] at hok hu
      dsimp only at hok hu
      simp only [List.mem_cons] at hu
      cases hu with
      | inl hu =>
        subst hu
        have := attachOne_bounds codec pow now trunk branch mwm t restA kA
        rw [ha] at this; exact this
      | inr hu =>
        exact ih k (by rw [hr]) u (by rw [hr]; exact hu)

lemma doPowAux_links (codec : Codec) (pow : giota.PowFunc) (now : Nat → Int)
    (trunk branch : String) (mwm : Int) :
    ∀ (txs : List giota.Transaction) (k : Nat),
      (doPowAux codec pow now trunk branch mwm txs k).2.2 = none →
      linkedChain codec trunk branch (doPowAux codec pow now trunk branch mwm txs k).1 := by
  intro txs
  induction txs with
  | nil => intro k _; rw [doPowAux_nil]; exact linkedChain_nil codec trunk branch
  | cons t rest ih =>
    intro k hok
    rw [doPowAux_cons] at hok ⊢
    rcases hr : doPowAux codec pow now trunk branch mwm rest k with ⟨restA, kA, errA⟩
    cases errA with
    | some e => exact absurd hok (by rw [hr]; simp)
    | none =>
      rw [hr] at hok
      dsimp only at hok ⊢
      rcases ha : attachOne codec pow now trunk branch mwm t restA kA with ⟨t2, perr⟩
      rw [ha] at hok
      dsimp only at hok ⊢
      have hIH : linkedChain codec trunk branch restA := by
        have h1 := ih k (by rw [hr])
        rw [hr] at h1; exact h1
      cases restA with
      | nil =>
        have hrefs := attachOne_refs_nil codec pow now trunk branch mwm t kA
        rw [ha] at hrefs
        exact linkedChain_single codec trunk branch t2 hrefs.1 hrefs.2
      | cons r restA2 =>
        have hrefs := attachOne_refs_cons codec pow now trunk branch mwm t r restA2 kA
        rw [ha] at hrefs
        exact linkedChain_cons codec trunk branch t2 r restA2 hIH hrefs.1 hrefs.2

lemma buildTransactions_cons (codec : Codec) (s : String) (rest : List String) :
    buildTransactions codec (s :: rest) =
      match buildTransactions codec rest, codec.newTransaction s with
      | some txs, some t => some (txs ++ [t])
      | _, _ => none := rfl

lemma buildTransactions_length (codec : Codec) :
    ∀ (l : List String) (ds : List giota.Transaction),
      buildTransactions codec l = some ds → ds.length = l.length := by
  intro l
  induction l with
  | nil =>
    intro ds h
    have hds : ds = [] := by
      have h2 : some ([] : List giota.Transaction) = some ds := h
      injection h2 with h3
      exact h3.symm
    subst hds; rfl
  | cons s rest ih =>
    intro ds h
    rw [buildTransactions_cons] at h
    rcases hb : buildTransactions codec rest with _ | txs <;> rw [hb] at h <;>
      rcases hn : codec.newTransaction s with _ | t <;> rw [hn] at h <;>
      dsimp only at h
    · exact absurd h (by simp)
    · exact absurd h (by simp)
    · exact absurd h (by simp)
    · have hds : ds = txs ++ [t] := by injection h with h2; exact h2.symm
      subst hds
      have := ih txs hb
      simp [this]

lemma buildTransactions_get (codec : Codec) :
    ∀ (l : List String) (ds : List giota.Transaction),
      buildTransactions codec l = some ds →
      ∀ (j : Nat) (hj : j < ds.length) (hj2 : l.length - 1 - j < l.length),
        codec.newTransaction (l.get ⟨l.length - 1 - j, hj2⟩) = some (ds.get ⟨j, hj⟩) := by
  intro l
  induction l with
  | nil =>
    intro ds h j hj hj2
    exact absurd hj2 (by simp)
  | cons s rest ih =>
    intro ds h j hj hj2
    rw [buildTransactions_cons] at h
    rcases hb : buildTransactions codec rest with _ | txs <;> rw [hb] at h <;>
      rcases hn : codec.newTransaction s with _ | t <;> rw [hn] at h <;>
      dsimp only at h
    · exact absurd h (by simp)
    · exact absurd h (by simp)
    · exact absurd h (by simp)
    · have hds : ds = txs ++ [t] := by injection h with h2; exact h2.symm
      subst hds
      have hlen : txs.length = rest.length := buildTransactions_length codec rest txs hb
      simp only [List.get_eq_getElem] at ih ⊢
      by_cases hcase : j < txs.length
      · have hgoal : (txs ++ [t])[j] = txs[j] := List.getElem_append_left hcase
        rw [hgoal]
        have hidx : (s :: rest).length - 1 - j = (rest.length - 1 - j) + 1 := by
          simp only [List.length_cons]; omega
        simp only [hidx, List.getElem_cons_succ]
        exact ih txs hb j (by omega) (by omega)
      · have hj1 : j < txs.length + 1 := by
          simpa using hj
        have hjeq : j = txs.length := by omega
        subst hjeq
        have hgoal : (txs ++ [t])[txs.length] = t := by
          simp
        rw [hgoal]
        have hidx : (s :: rest).length - 1 - txs.length = 0 := by
          simp only [List.length_cons]; omega
        simp only [hidx, List.getElem_cons_zero]
        exact hn

lemma ServeHTTP_post (codec : Codec) (pow : giota.PowFunc) (now : Nat → Int)
    (maxTx : Nat) (contents : String) :
    ServeHTTP codec pow now maxTx { method := "POST", body := some contents } =
      match codec.decodeCmd contents with
      | none => HandlerResult.next (some contents)
      | some command =>
        if command.Command ≠ attachToTangleCommand then HandlerResult.next (some contents)
        else handleCmd codec pow now maxTx contents command := rfl

lemma handleCmd_mwm_irrelevant (codec : Codec) (pow : giota.PowFunc) (now : Nat → Int)
    (maxTx : Nat) (contents : String) (command : AttachToTangleCmd) (m : Int) :
    handleCmd codec pow now maxTx contents { command with MWM := m } =
      handleCmd codec pow now maxTx contents command := by
  cases command; rfl

lemma handleCmd_pow_congr (codec : Codec) (f g : giota.PowFunc) (now : Nat → Int)
    (maxTx : Nat) (contents : String) (command : AttachToTangleCmd)
    (h : ∀ s, f s 14 = g s 14) :
    handleCmd codec f now maxTx contents command =
      handleCmd codec g now maxTx contents command := by
  unfold handleCmd
  split
  · rfl
  split
  · rfl
  rcases hb : buildTransactions codec command.Trytes with _ | txs
  · rfl
  · dsimp only
    unfold doPow
    rw [doPowAux_congr codec f g now command.TrunkTxHash command.BranchTxHash 14 h txs 2]

/-- Claim C10: for every request whose method is not POST, ServeHTTP
forwards the request to the next handler with its body untouched, for
any codec, proof-of-work function, clock and limit — even if the body
holds a well-formed attachToTangle command — so no interception,
validation or attachment happens for non-POST requests. -/
theorem non_post_passthrough (codec : Codec) (pow : giota.PowFunc) (now : Nat → Int)
    (maxTx : Nat) (r : Request) (h : r.method ≠ "POST") :
    ServeHTTP codec pow now maxTx r = HandlerResult.next r.body := by
  unfold ServeHTTP
  rw [if_pos h]

/-- Claim C10 witness: a GET request whose body decodes to a well-formed
attachToTangle command still passes through unchanged. -/
theorem non_post_passthrough_witness :
    ("GET" : String) ≠ "POST" ∧
    cc.decodeCmd "reqAB" = some cmdAB ∧
    cmdAB.Command = attachToTangleCommand ∧
    ServeHTTP cc pp now0 200 { method := "GET", body := some "reqAB" } =
      HandlerResult.next (some "reqAB") :=
  ⟨by decide, rfl, rfl,
    non_post_passthrough cc pp now0 200 { method := "GET", body := some "reqAB" } (by decide)⟩

/-- Claim C6: a well-formed attachToTangle POST request with an empty
trytes list is passed through to the next handler with the read body
bytes restored, for any codec, proof-of-work function, clock and limit:
no attach, no size-validation error and no transaction decoding is
surfaced. -/
theorem empty_trytes_pass_through (codec : Codec) (pow : giota.PowFunc)
    (now : Nat → Int) (maxTx : Nat) (contents : String) (command : AttachToTangleCmd)
    (hdec : codec.decodeCmd contents = some command)
    (hcmd : command.Command = attachToTangleCommand)
    (hempty : command.Trytes = []) :
    ServeHTTP codec pow now maxTx { method := "POST", body := some contents } =
      HandlerResult.next (some contents) := by
  rw [ServeHTTP_post, hdec]
  dsimp only
  rw [if_neg (by simp [hcmd])]
  simp [handleCmd, hempty]

/-- Claim C6 witness: the concrete empty-list command passes through with
the original body. -/
theorem empty_trytes_pass_through_witness :
    cc.decodeCmd "reqEmpty" = some cmdEmpty ∧
    cmdEmpty.Command = attachToTangleCommand ∧
    cmdEmpty.Trytes = [] ∧
    ServeHTTP cc pp now0 200 { method := "POST", body := some "reqEmpty" } =
      HandlerResult.next (some "reqEmpty") :=
  ⟨rfl, rfl, rfl,
    empty_trytes_pass_through cc pp now0 200 "reqEmpty" cmdEmpty rfl rfl rfl⟩

/-- Claim C5: a well-formed attachToTangle POST request whose trytes list
exceeds the configured limit is rejected with the 400 bundle-too-large
error carrying the configured limit in its message; the result holds for
every codec and proof-of-work function (neither decoding of entries nor
the attacher is ever consulted) and is not a pass-through. -/
theorem bundle_too_large_rejected (codec : Codec) (pow : giota.PowFunc)
    (now : Nat → Int) (maxTx : Nat) (contents : String) (command : AttachToTangleCmd)
    (hdec : codec.decodeCmd contents = some command)
    (hcmd : command.Command = attachToTangleCommand)
    (hlen : command.Trytes.length > maxTx) :
    ServeHTTP codec pow now maxTx { method := "POST", body := some contents } =
      HandlerResult.fail 400
        (wrapErr ("max allowed is " ++ toString maxTx) ErrTxBundleLimitExceeded) := by
  rw [ServeHTTP_post, hdec]
  dsimp only
  rw [if_neg (by simp [hcmd])]
  have hne : ¬ command.Trytes.length = 0 := by omega
  simp [handleCmd, hne, hlen]

set_option maxRecDepth 4000 in
/-- Claim C5 witness: a 201-transaction bundle against the configured
maximum of 200 fails with the error message mentioning 200. -/
theorem bundle_too_large_rejected_witness :
    cc.decodeCmd "req201" = some cmd201 ∧
    cmd201.Command = attachToTangleCommand ∧
    cmd201.Trytes.length > 200 ∧
    ServeHTTP cc pp now0 200 { method := "POST", body := some "req201" } =
      HandlerResult.fail 400 "max allowed is 200: the number of transactions exceeds the limit" := by
  refine ⟨rfl, rfl, by decide, ?_⟩
  have h := bundle_too_large_rejected cc pp now0 200 "req201" cmd201 rfl rfl (by decide)
  exact h.trans (by decide)

/-- Claim C4: the difficulty handed to the proof-of-work search is the
fixed literal 14 for every record, independent of the request's
minWeightMagnitude: changing the decoded command's MWM field arbitrarily
and replacing the proof-of-work function by any function that agrees
with it at difficulty 14 leaves the handler's result unchanged. -/
theorem pow_difficulty_fixed_14 (codec : Codec) (f g : giota.PowFunc) (now : Nat → Int)
    (maxTx : Nat) (contents : String) (command : AttachToTangleCmd) (m : Int)
    (h : ∀ s, f s 14 = g s 14) :
    handleCmd codec f now maxTx contents { command with MWM := m } =
      handleCmd codec g now maxTx contents command :=
  (handleCmd_mwm_irrelevant codec f now maxTx contents command m).trans
    (handleCmd_pow_congr codec f g now maxTx contents command h)

/-- Claim C4 witness: the always-succeeding function and the function
succeeding only at difficulty 14 agree at 14, so the handler's result is
identical even with the command's MWM overwritten to 99. -/
theorem pow_difficulty_fixed_14_witness :
    (∀ s, pp s 14 = ppOnly14 s 14) ∧
    handleCmd cc pp now0 200 "reqAB" { cmdAB with MWM := 99 } =
      handleCmd cc ppOnly14 now0 200 "reqAB" cmdAB :=
  ⟨fun _ => rfl,
    pow_difficulty_fixed_14 cc pp ppOnly14 now0 200 "reqAB" cmdAB 99 (fun _ => rfl)⟩

/-- Claim C1: when doPow completes without a proof-of-work error, the
bundle is hash-chained: the newest record (index len-1 of the
oldest-first list) carries the supplied trunk and branch anchors, and
every record i < len-1 has trunk reference equal to the hash of the
post-attach record i+1 and branch reference equal to the trunk anchor. -/
theorem attach_links_chain (codec : Codec) (pow : giota.PowFunc) (now : Nat → Int)
    (k : Nat) (tra : Transaction) (mwm : Int)
    (hok : (doPow codec pow now k tra tra.Transactions mwm).2.2 = none) :
    linkedChain codec tra.Trunk tra.Branch
      (doPow codec pow now k tra tra.Transactions mwm).1 :=
  doPowAux_links codec pow now tra.Trunk tra.Branch mwm tra.Transactions k hok

/-- Claim C1 witness: a concrete two-record bundle attaches successfully
and satisfies the chain shape. -/
theorem attach_links_chain_witness :
    (doPow cc pp now0 0
        { Trunk := "T0", Branch := "B0", Transactions := [txOf "A", txOf "B"] }
        [txOf "A", txOf "B"] 14).2.2 = none ∧
    linkedChain cc "T0" "B0"
      (doPow cc pp now0 0
        { Trunk := "T0", Branch := "B0", Transactions := [txOf "A", txOf "B"] }
        [txOf "A", txOf "B"] 14).1 :=
  ⟨rfl,
    attach_links_chain cc pp now0 0
      { Trunk := "T0", Branch := "B0", Transactions := [txOf "A", txOf "B"] } 14 rfl⟩

/-- Claim C8: the attacher only writes the six attachment fields: after
doPow — whether it succeeds or aborts on a proof-of-work error — the
value field and all opaque payload fields of every record, and the
number and order of records, are unchanged. -/
theorem attach_preserves_non_attachment_fields (codec : Codec) (pow : giota.PowFunc)
    (now : Nat → Int) (k : Nat) (tra : Transaction)
    (tx : List giota.Transaction) (mwm : Int) :
    (doPow codec pow now k tra tx mwm).1.map nonAttachmentFields =
      tx.map nonAttachmentFields :=
  doPowAux_frame codec pow now tra.Trunk tra.Branch mwm tx k

/-- Claim C9 counterexample: the attachment-timestamp lower bound the
code writes is the empty string (src/plugin.go line 213), which cannot
be the fixed-width encoding of zero: every value of the fixed-width
timestamp codec has the width of the sentinel `maxTimestampTrytes`
(9 trytes), and the empty string has width 0. -/
theorem lower_bound_not_fixed_width_zero :
    ((doPow cc pp now0 0 { Trunk := "T0", Branch := "B0", Transactions := [txOf "A"] }
        [txOf "A"] 14).1.map (fun t => t.AttachmentTimestampLowerBound)) = [""] ∧
    ¬ fixedWidthTimestampValue "" :=
  ⟨rfl, by unfold fixedWidthTimestampValue; decide⟩

/-- Claim C9 (amended): for every record processed by a successful
doPow, the attachment-timestamp lower bound is set to the empty string
(serialized by the codec as the all-zero field, but not a fixed-width
encoding) and the upper bound to the fixed sentinel constant
`maxTimestampTrytes` — the same two values for every record of every
bundle. -/
theorem timestamp_bounds_constant (codec : Codec) (pow : giota.PowFunc)
    (now : Nat → Int) (k : Nat) (tra : Transaction)
    (tx : List giota.Transaction) (mwm : Int)
    (hok : (doPow codec pow now k tra tx mwm).2.2 = none) :
    ∀ t ∈ (doPow codec pow now k tra tx mwm).1,
      t.AttachmentTimestampLowerBound = "" ∧
      t.AttachmentTimestampUpperBound = maxTimestampTrytes :=
  doPowAux_bounds codec pow now tra.Trunk tra.Branch mwm tx k hok

/-- Claim C9 witness: the concrete singleton bundle attaches successfully
and both bounds carry the two constants. -/
theorem timestamp_bounds_constant_witness :
    (doPow cc pp now0 0 { Trunk := "T0", Branch := "B0", Transactions := [txOf "A"] }
        [txOf "A"] 14).2.2 = none ∧
    ∀ t ∈ (doPow cc pp now0 0
        { Trunk := "T0", Branch := "B0", Transactions := [txOf "A"] }
        [txOf "A"] 14).1,
      t.AttachmentTimestampLowerBound = "" ∧
      t.AttachmentTimestampUpperBound = maxTimestampTrytes :=
  ⟨rfl,
    timestamp_bounds_constant cc pp now0 0
      { Trunk := "T0", Branch := "B0", Transactions := [txOf "A"] } [txOf "A"] 14 rfl⟩

/-- Claim C2: ServeHTTP ignores the error doPow returns (src/plugin.go
line 160 discards it): with a proof-of-work function that fails on every
record, doPow reports the error, yet the handler still answers HTTP 200
with the re-encoded partially attached bundle instead of surfacing a
server-side failure. -/
theorem pow_error_ignored_returns_ok :
    (doPow cc ppErr now0 2
        { Trunk := "T0", Branch := "B0", Transactions := [txOf "B", txOf "A"] }
        [txOf "B", txOf "A"] 14).2.2 = some "pow search failed" ∧
    ServeHTTP cc ppErr now0 200 { method := "POST", body := some "reqAB" } =
      HandlerResult.ok { Trytes := ["B", "A"], Duration := 0 } :=
  ⟨rfl, rfl⟩

/-- Claim C3 counterexample: under the concrete codec — which serializes
a record to its payload field, a field doPow never touches, so the
attached form of request entry "A" serializes back to "A" — the request
trytes ["A", "B"] are answered with response trytes ["B", "A"]: the
response is not in request order. -/
theorem response_order_not_input_order :
    cc.decodeCmd "reqAB" = some cmdAB ∧
    cmdAB.Trytes = ["A", "B"] ∧
    ServeHTTP cc pp now0 200 { method := "POST", body := some "reqAB" } =
      HandlerResult.ok { Trytes := ["B", "A"], Duration := 0 } ∧
    (["B", "A"] : List String) ≠ ["A", "B"] :=
  ⟨rfl, rfl, rfl, by decide⟩

/-- Claim C3 (amended): whenever the handler answers a request, the
response trytes list is the serialization of the attached records in
the attacher's internal oldest-first order, which is the reverse of the
request's trytes order: entry j of the underlying record list is decoded
from request entry len-1-j, and attachment preserves each record's
identifying (non-attachment) fields, so response entry j is the attached
form of request entry len-1-j. -/
theorem response_is_reverse_of_input (codec : Codec) (pow : giota.PowFunc)
    (now : Nat → Int) (maxTx : Nat) (contents : String) (command : AttachToTangleCmd)
    (res : AttachToTangleRes)
    (hok : handleCmd codec pow now maxTx contents command = HandlerResult.ok res) :
    ∃ ds : List giota.Transaction,
      buildTransactions codec command.Trytes = some ds ∧
      ds.length = command.Trytes.length ∧
      (∀ (j : Nat) (hj : j < ds.length)
          (hj2 : command.Trytes.length - 1 - j < command.Trytes.length),
        codec.newTransaction (command.Trytes.get ⟨command.Trytes.length - 1 - j, hj2⟩) =
          some (ds.get ⟨j, hj⟩)) ∧
      res.Trytes =
        (doPow codec pow now 2
          { Trunk := command.TrunkTxHash, Branch := command.BranchTxHash,
            Transactions := ds } ds 14).1.map codec.txTrytes ∧
      (doPow codec pow now 2
          { Trunk := command.TrunkTxHash, Branch := command.BranchTxHash,
            Transactions := ds } ds 14).1.map nonAttachmentFields =
        ds.map nonAttachmentFields := by
  unfold handleCmd at hok
  by_cases h0 : command.Trytes.length = 0
  · rw [if_pos h0] at hok; exact absurd hok (by simp)
  rw [if_neg h0] at hok
  by_cases h1 : command.Trytes.length > maxTx
  · rw [if_pos h1] at hok; exact absurd hok (by simp)
  rw [if_neg h1] at hok
  rcases hb : buildTransactions codec command.Trytes with _ | txs
  · rw [hb] at hok; exact absurd hok (by simp)
  rw [hb] at hok
  dsimp only at hok
  rcases hd : doPow codec pow now 2
      { Trunk := command.TrunkTxHash, Branch := command.BranchTxHash,
        Transactions := txs } txs 14 with ⟨attached, k2, e⟩
  rw [hd] at hok
  dsimp only at hok
  rcases hm : codec.marshalRes
      { Trytes := attached.map codec.txTrytes,
        Duration := ((now (k2 + 1)) - now 0).tdiv 1000000 } with _ | rb
  · rw [hm] at hok; exact absurd hok (by simp)
  rw [hm] at hok
  dsimp only at hok
  have hres : res =
      { Trytes := attached.map codec.txTrytes,
        Duration := ((now (k2 + 1)) - now 0).tdiv 1000000 } := by
    injection hok with h2; exact h2.symm
  refine ⟨txs, rfl, buildTransactions_length codec command.Trytes txs hb,
    buildTransactions_get codec command.Trytes txs hb, ?_, ?_⟩
  · rw [hres, hd]
  · exact doPowAux_frame codec pow now command.TrunkTxHash command.BranchTxHash 14 txs 2

/-- Claim C3 witness: on the concrete two-entry request the handler
answers, and the amended ordering facts hold of the answer. -/
theorem response_is_reverse_of_input_witness :
    handleCmd cc pp now0 200 "reqAB" cmdAB =
      HandlerResult.ok { Trytes := ["B", "A"], Duration := 0 } ∧
    ∃ ds : List giota.Transaction,
      buildTransactions cc cmdAB.Trytes = some ds ∧
      ds.length = cmdAB.Trytes.length ∧
      (∀ (j : Nat) (hj : j < ds.length)
          (hj2 : cmdAB.Trytes.length - 1 - j < cmdAB.Trytes.length),
        cc.newTransaction (cmdAB.Trytes.get ⟨cmdAB.Trytes.length - 1 - j, hj2⟩) =
          some (ds.get ⟨j, hj⟩)) ∧
      ({ Trytes := ["B", "A"], Duration := 0 } : AttachToTangleRes).Trytes =
        (doPow cc pp now0 2
          { Trunk := cmdAB.TrunkTxHash, Branch := cmdAB.BranchTxHash,
            Transactions := ds } ds 14).1.map cc.txTrytes ∧
      (doPow cc pp now0 2
          { Trunk := cmdAB.TrunkTxHash, Branch := cmdAB.BranchTxHash,
            Transactions := ds } ds 14).1.map nonAttachmentFields =
        ds.map nonAttachmentFields :=
  ⟨rfl, response_is_reverse_of_input cc pp now0 200 "reqAB" cmdAB
      { Trytes := ["B", "A"], Duration := 0 } rfl⟩
